import Mathlib

/-!
# Discompress backend — verification of the size-targeting core

Shallow embedding of the Discompress backend (`src/server.js`, two variants
separated by a document separator, and `src/unnamed/part_000`): the bitrate
planner, the multi-pass size-targeting loop, the FIFO admission queue, the
upload handler's response logic, filename sanitization, and the cleanup sets.
JavaScript numbers are modelled as exact arithmetic (`ℚ`/`ℤ`/`ℕ`); `Math.floor`
of a nonnegative quotient is `Int.floor` on `ℚ` or `Nat` division.
-/

namespace Discompress

/-! ## Configuration constants (concurrency variant, `src/server.js` lines 162–166,
and simple variant lines 29–31), at their defaults. -/

/-- Constant `TARGET_MB = parseFloat('9.8')`. -/
def TARGET_MB : ℚ := 98 / 10

/-- Constant `AUDIO_KBPS = parseInt('96')`. -/
def AUDIO_KBPS : ℤ := 96

/-- Derived `targetBytes = Math.floor(TARGET_MB * 1024 * 1024)` (`server.js` line 208). -/
def targetBytes : ℤ := ⌊TARGET_MB * 1024 * 1024⌋

/-- The value `targetBytes` as a natural number, for comparing against file sizes. -/
def targetBytesNat : ℕ := targetBytes.toNat

/-! ## Media Inspector output → duration flooring

`const duration = Math.max(1, meta.format?.duration || 1)` (`server.js` lines 58
and 207; `part_000` line 45). The probe's duration field is optional; JavaScript
`x || 1` maps a missing value or `0` to `1`. -/

/-- Duration actually fed to the planner: `Math.max(1, meta.format?.duration || 1)`.
`none` models a missing `meta.format?.duration`; `some 0` models a zero duration. -/
def effectiveDuration (probed : Option ℚ) : ℚ :=
  max 1 (match probed with
         | none => 1
         | some d => if d = 0 then 1 else d)

/-! ## Bitrate Planner

`totalKbps = Math.max(floorTotal, Math.floor((targetBytes * 8) / duration / 1000))`
(`server.js` line 62 with floor 200, line 209 with floor 180);
`initialVideoKbps = Math.max(floorVideo, totalKbps - AUDIO_KBPS)`
(line 63 with floor 64, line 210 with floor 56). -/

/-- Planner step `totalKbps = Math.max(floorTotal, Math.floor(targetBytes * 8 / duration / 1000))`. -/
def totalKbps (floorTotal : ℤ) (tb : ℤ) (duration : ℚ) : ℤ :=
  max floorTotal ⌊(tb : ℚ) * 8 / duration / 1000⌋

/-- Planner step `initialVideoKbps = Math.max(floorVideo, totalKbps - audioKbps)`. -/
def initialVideoKbps (floorVideo : ℤ) (audioKbps : ℤ) (tk : ℤ) : ℤ :=
  max floorVideo (tk - audioKbps)

/-- The planner of the concurrency variant (`server.js` lines 209–210):
floors 180 / 56. Returns `(totalKbps, initialVideoKbps)`. -/
def planConcurrency (tb : ℤ) (duration : ℚ) : ℤ × ℤ :=
  (totalKbps 180 tb duration, initialVideoKbps 56 AUDIO_KBPS (totalKbps 180 tb duration))

/-- The planner of the simple variant (`server.js` lines 62–63, identical in
`part_000` lines 49–50): floors 200 / 64. Returns `(totalKbps, initialVideoKbps)`. -/
def planSimple (tb : ℤ) (duration : ℚ) : ℤ × ℤ :=
  (totalKbps 200 tb duration, initialVideoKbps 64 AUDIO_KBPS (totalKbps 200 tb duration))

/-! ## Filename sanitization

`(req.file.originalname || 'video').replace(/[^\w.\- ]+/g, '')`
(`server.js` lines 51 and 201; `part_000` line 38). Replacing every maximal run
of disallowed characters by the empty string is the same as deleting every
disallowed character, i.e. filtering by the character class `[\w.\- ]`. JS `\w`
without the unicode flag is `[A-Za-z0-9_]`. -/

/-- Membership in the regex character class `[\w.\- ]`. -/
def allowedChar (c : Char) : Bool :=
  c.isAlpha || c.isDigit || c = '_' || c = '.' || c = '-' || c = ' '

/-- Sanitization `name.replace(/[^\w.\- ]+/g, '')`: delete every character outside `[\w.\- ]`. -/
def sanitizeName (s : List Char) : List Char :=
  s.filter allowedChar

/-! ## Size-Targeting Controller

Concurrency variant (`server.js` lines 213–224):
```
const factors = [1.00, 0.82, 0.68, 0.56];
let vkbps = initialVideoKbps;
for (let i=0; i<factors.length; i++){
  if (i>0) vkbps = Math.max(48, Math.floor(initialVideoKbps * factors[i]));
  await encode(inputPath, out, vkbps, AUDIO_KBPS, MAX_WIDTH);
  const sz = (await fsp.stat(out)).size;
  lastOut = out;
  if (sz <= targetBytes) break;
}
```
We model the encoder as an oracle `sizes : ℕ → ℕ` giving the measured output
size of attempt `i`. The factors are exact rationals `n/100`, so
`Math.floor(initialVideoKbps * factors[i])` is `initialVideoKbps * n / 100`
in natural-number division. -/

/-- The hard-coded factor schedule `[1.00, 0.82, 0.68, 0.56]`
(`server.js` line 213), as numerators over 100. -/
def factorsNum : List ℕ := [100, 82, 68, 56]

/-- The video bitrate passed to the encoder on attempt `i`
(`server.js` lines 215 and 219): attempt 0 uses `initialVideoKbps` unchanged,
attempt `i > 0` uses `Math.max(48, Math.floor(initialVideoKbps * factors[i]))`. -/
def vkbpsAt (init : ℕ) (i : ℕ) : ℕ :=
  if i = 0 then init else max 48 (init * factorsNum.getD i 0 / 100)

/-- The loop of `server.js` lines 217–224, with the encoder replaced by the size
oracle `sizes`: returns the list of attempt indices actually invoked, in
invocation order. Started at `attemptsRun sizes target 0 n` for an `n`-entry
schedule. Each iteration invokes attempt `i`; the loop `break`s as soon as
`sizes i ≤ target`, otherwise continues with `i+1` while fuel remains. -/
def attemptsRun (sizes : ℕ → ℕ) (target : ℕ) : ℕ → ℕ → List ℕ
  | _, 0 => []
  | i, fuel + 1 =>
    i :: (if sizes i ≤ target then [] else attemptsRun sizes target (i + 1) fuel)

/-- Mock encoder returning sizes `[12MB, 9MB, 9MB, ...]` (spec §8's test oracle):
attempt 0 produces a 12 MB file, every later attempt a 9 MB file. -/
def mockSizes (i : ℕ) : ℕ :=
  if i = 0 then 12 * 1024 * 1024 else 9 * 1024 * 1024

/-- Mock encoder whose output is always over budget: every attempt produces
a 12 MB file. -/
def mockSizesOver (_ : ℕ) : ℕ := 12 * 1024 * 1024

/-! ## Upload handler responses (`server.js` lines 195–236)

The handler's observable outcome, as a function of whether a file field was
present, the probe's outcome, and the encoder oracle. The encoder oracle
`enc : ℕ → Option ℕ` gives, for attempt `i`, `none` when that encode invocation
fails (`EncodeError`) and `some sz` when it produces an output of `sz` bytes. -/

/-- An HTTP response, reduced to the fields the spec speaks about. `body` holds
the plain-text message on error paths; on the 200 path the body is the encoded
file's bytes, which we do not model. -/
structure Response where
  status : ℕ
  contentType : Option String
  body : String
deriving DecidableEq

/-- Outcome of `await probe(inputPath)` (`server.js` line 206): either metadata
carrying an optional duration, or a rejection (`ProbeError`). -/
inductive ProbeOutcome where
  | ok (duration : Option ℚ)
  | fail
deriving DecidableEq

/-- The fixed plain-text 500 message (`server.js` lines 85 and 234). -/
def compressionFailedMsg : String :=
  "Compression failed. Try a shorter clip or lower source bitrate."

/-- The encode loop of `server.js` lines 217–224 with fallible encoder oracle:
returns `Except` — `.error ()` when some invoked encode fails (the `await`
throws, aborting the Job), `.ok i` with the index of the attempt whose output is
returned (`lastOut`) otherwise. Started at `encLoop enc target 0 n`. -/
def encLoop (enc : ℕ → Option ℕ) (target : ℕ) : ℕ → ℕ → Except Unit ℕ
  | i, 0 => .ok (i - 1)
  | i, fuel + 1 =>
    match enc i with
    | none => .error ()
    | some sz => if sz ≤ target then .ok i else encLoop enc target (i + 1) fuel

/-- The `/api/upload` handler's response (concurrency variant, `server.js`
lines 195–236): `400` when no file field is present (line 197); `500` with the
fixed message when the probe rejects or any invoked encode rejects (lines
231–235); otherwise `200` with `Content-Type: video/mp4` (lines 262–264),
whether or not the final output met the target. -/
def uploadResponse (hasFile : Bool) (probed : ProbeOutcome) (enc : ℕ → Option ℕ) :
    Response :=
  if hasFile = false then ⟨400, none, "No file uploaded"⟩
  else
    match probed with
    | .fail => ⟨500, none, compressionFailedMsg⟩
    | .ok _ =>
      match encLoop enc targetBytesNat 0 factorsNum.length with
      | .error _ => ⟨500, none, compressionFailedMsg⟩
      | .ok _ => ⟨200, some "video/mp4", ""⟩

/-! ## Admission queue (`server.js` lines 177–193)

```
const queue = []; let running = 0;
function enqueue(jobFn){ return new Promise((resolve,reject)=>{ queue.push(...); pump(); }); }
function pump(){
  if (running >= CONCURRENCY || queue.length === 0) return;
  const { jobFn, ... } = queue.shift();
  running++;
  Promise.resolve().then(jobFn)
    .then((v)=>{ running--; pump(); resolve(v); })
    .catch((e)=>{ running--; pump(); reject(e); });
}
```
Jobs are identified by natural numbers. The state records, besides the live
`queue` (`pending`) and `running` counter, the history lists `arrived` (order
of `enqueue` calls) and `started` (order in which `pump` began jobs). -/

/-- Admission-queue state: `pending` is the live `queue` array, `running` the
counter; `arrived`/`started` are history lists for stating FIFO ordering. -/
structure QState where
  arrived : List ℕ
  started : List ℕ
  pending : List ℕ
  running : ℕ
deriving DecidableEq

/-- One call of `pump()` (`server.js` lines 186–193): if capacity is free and
the queue is nonempty, shift the head job off the queue, increment `running`,
and start it. -/
def pump (C : ℕ) (s : QState) : QState :=
  if C ≤ s.running then s
  else
    match s.pending with
    | [] => s
    | j :: rest =>
      { s with pending := rest, running := s.running + 1, started := s.started ++ [j] }

/-- The empty initial queue state. -/
def qInit : QState := ⟨[], [], [], 0⟩

/-- Queue transitions: `arrive j` is `enqueue(jobFn)` (push then `pump()`,
lines 181–184); `complete` is a running job settling (`running--` then
`pump()`, lines 191–192). -/
inductive QStep (C : ℕ) : QState → QState → Prop
  | arrive (j : ℕ) (s : QState) :
      QStep C s (pump C { s with arrived := s.arrived ++ [j], pending := s.pending ++ [j] })
  | complete (s : QState) (h : 0 < s.running) :
      QStep C s (pump C { s with running := s.running - 1 })

/-- States reachable from the empty queue. -/
def QReachable (C : ℕ) (s : QState) : Prop :=
  Relation.ReflTransGen (QStep C) qInit s

/-- Per-job events of the handler, in the order the code runs them. -/
inductive JobEvent where
  | slotAcquire
  | probeEncode
  | slotRelease
  | streamResponse
  | errorResponse
deriving DecidableEq

/-- Event order of one Job through the concurrency-variant handler. Success:
`pump` runs `running--; pump(); resolve(v)` (line 191), so the slot is released
before the `enqueue` promise resolves, and `streamDownload` (line 228) runs only
after `await enqueue(...)`. Failure: `running--; pump(); reject(e)` (line 192)
precedes the handler's `catch`, which sends the 500 (line 234). -/
def handlerEvents (success : Bool) : List JobEvent :=
  if success then
    [.slotAcquire, .probeEncode, .slotRelease, .streamResponse]
  else
    [.slotAcquire, .probeEncode, .slotRelease, .errorResponse]

/-! ## Delivery & Cleanup sets (concurrency variant) -/

/-- Output path of attempt `i` (`server.js` line 218):
`i===0 ? firstOut : path.join(TMP_DIR, Date.now()+'_'+i+'_'+outName)`,
with `ts` standing for the `Date.now()` value of that iteration. -/
def attemptOut (firstOut outName : String) (ts : ℕ) (i : ℕ) : String :=
  if i = 0 then firstOut else "./tmp/" ++ toString ts ++ "_" ++ toString i ++ "_" ++ outName

/-- The set passed to `cleanupLater` on the success path (`server.js` line 230):
`[inputPath, filePath]` where `filePath` is the final attempt's output. -/
def cleanupSetSuccess (inputPath finalOut : String) : List String :=
  [inputPath, finalOut]

/-- The set passed to `cleanupLater` on the failure path (`server.js` line 233):
`[inputPath]` alone. -/
def cleanupSetFailure (inputPath : String) : List String :=
  [inputPath]

end Discompress

/-! # Theorems -/

namespace Discompress

/-- Evaluation of `Math.floor(9.8 * 1024 * 1024)`: 10276044. -/
lemma targetBytes_eq : targetBytes = 10276044 := by
  norm_num [targetBytes, TARGET_MB]

lemma targetBytesNat_eq : targetBytesNat = 10276044 := by
  rw [targetBytesNat, targetBytes_eq]; rfl

/-- C7. The duration value fed to the bitrate planner is at least 1 second —
a missing (`none`) or zero duration is floored to 1 — so the division by
`durationSeconds` in the `totalKbps` computation is never a division by zero. -/
theorem duration_floored_at_one :
    (∀ probed : Option ℚ, 1 ≤ effectiveDuration probed ∧ effectiveDuration probed ≠ 0) ∧
    effectiveDuration none = 1 ∧ effectiveDuration (some 0) = 1 := by
  refine ⟨fun probed => ⟨le_max_left _ _, ?_⟩, rfl, by simp [effectiveDuration]⟩
  have h : (1 : ℚ) ≤ effectiveDuration probed := le_max_left _ _
  intro h0
  rw [h0] at h
  exact absurd h (by norm_num)

/-- C3. The planner computes
`totalKbps = max(floorTotal, ⌊targetBytes * 8 / duration / 1000⌋)` and
`initialVideoKbps = max(floorVideo, totalKbps - audioKbps)` (both hold by
definition); consequently, for every `duration > 0` and `targetBytes > 0`,
`initialVideoKbps ≥ floorVideo`, and once
`duration ≥ targetBytes * 8 / (1000 * floorTotal)` (very large durations),
`totalKbps` is clamped to the configured minimum `floorTotal`. -/
theorem planner_floors (floorTotal floorVideo audio tb : ℤ) (duration : ℚ)
    (_htb : 0 < tb) (hft : 0 < floorTotal) (hd : 0 < duration) :
    floorVideo ≤ initialVideoKbps floorVideo audio (totalKbps floorTotal tb duration) ∧
    ((tb : ℚ) * 8 / (1000 * (floorTotal : ℚ)) ≤ duration →
      totalKbps floorTotal tb duration = floorTotal) := by
  constructor
  · exact le_max_left _ _
  · intro hbig
    have hft' : (0 : ℚ) < (floorTotal : ℚ) := by exact_mod_cast hft
    have h1000ft : (0 : ℚ) < 1000 * (floorTotal : ℚ) := by positivity
    -- from hbig : tb*8 / (1000*ft) ≤ duration we get tb*8 ≤ duration * (1000*ft)
    have hmul : (tb : ℚ) * 8 ≤ duration * (1000 * (floorTotal : ℚ)) :=
      (div_le_iff₀ h1000ft).mp hbig
    have hquot : (tb : ℚ) * 8 / duration / 1000 ≤ (floorTotal : ℚ) := by
      rw [div_div, div_le_iff₀ (by positivity : (0 : ℚ) < duration * 1000)]
      calc (tb : ℚ) * 8 ≤ duration * (1000 * (floorTotal : ℚ)) := hmul
        _ = (floorTotal : ℚ) * (duration * 1000) := by ring
    have hfloor : ⌊(tb : ℚ) * 8 / duration / 1000⌋ ≤ floorTotal := by
      have := Int.floor_le_floor hquot
      simpa using this
    exact max_eq_left hfloor

/-- Witness for `planner_floors`: with the concurrency-variant planner and the
default 9.8 MB target, at a small 30-second duration `initialVideoKbps ≥ 56`
(the floor holds well below the clamp threshold), and at a one-million-second
duration `totalKbps` is clamped to 180. -/
theorem planner_floors_witness :
    (56 ≤ initialVideoKbps 56 AUDIO_KBPS (totalKbps 180 targetBytes 30) ∧
      ((targetBytes : ℚ) * 8 / (1000 * (180 : ℚ)) ≤ 30 →
        totalKbps 180 targetBytes 30 = 180)) ∧
    totalKbps 180 targetBytes 1000000 = 180 :=
  ⟨planner_floors 180 56 AUDIO_KBPS targetBytes 30
      (by rw [targetBytes_eq]; norm_num) (by norm_num) (by norm_num),
    (planner_floors 180 56 AUDIO_KBPS targetBytes 1000000
      (by rw [targetBytes_eq]; norm_num) (by norm_num) (by norm_num)).2
      (by rw [targetBytes_eq]; norm_num)⟩

/-- C8. The sanitized name contains only word characters, dots, hyphens and
spaces; it is nonempty whenever the input contains at least one permitted
character; and `"../../evil name!.mov"` sanitizes to exactly its permitted
characters, `"....evil name.mov"`. -/
theorem sanitize_name_sound (s : List Char) (c₀ : Char)
    (hc₀ : c₀ ∈ s) (hall : allowedChar c₀ = true) :
    (∀ c ∈ sanitizeName s, allowedChar c = true) ∧
    sanitizeName s ≠ [] ∧
    sanitizeName ("../../evil name!.mov".toList) = "....evil name.mov".toList := by
  refine ⟨fun c hc => (List.mem_filter.mp hc).2, ?_, by decide⟩
  intro hnil
  have : c₀ ∈ sanitizeName s := List.mem_filter.mpr ⟨hc₀, hall⟩
  rw [hnil] at this
  exact absurd this (List.not_mem_nil c₀)

/-- Witness for `sanitize_name_sound`, at the input `"../../evil name!.mov"`
(which contains the permitted character `'e'`). -/
theorem sanitize_name_sound_witness :
    (∀ c ∈ sanitizeName ("../../evil name!.mov".toList), allowedChar c = true) ∧
    sanitizeName ("../../evil name!.mov".toList) ≠ [] ∧
    sanitizeName ("../../evil name!.mov".toList) = "....evil name.mov".toList :=
  sanitize_name_sound ("../../evil name!.mov".toList) 'e' (by decide) (by decide)

/-- If every attempt in the fuel window is over target, the loop visits the whole
window in order. -/
lemma attemptsRun_all_over (sizes : ℕ → ℕ) (target : ℕ) :
    ∀ fuel i, (∀ j, i ≤ j → j < i + fuel → target < sizes j) →
      attemptsRun sizes target i fuel = List.range' i fuel := by
  intro fuel
  induction fuel with
  | zero => intro i _; rfl
  | succ m ih =>
    intro i h
    have hi : target < sizes i := h i le_rfl (by omega)
    rw [attemptsRun, if_neg (by omega), ih (i + 1) (fun j hj hj' => h j (by omega) (by omega))]
    rfl

/-- If the first in-budget attempt in the fuel window is `k`, the loop visits
exactly `i, i+1, …, k` in order. -/
lemma attemptsRun_first_hit (sizes : ℕ → ℕ) (target : ℕ) :
    ∀ fuel i k, i ≤ k → k < i + fuel →
      (∀ j, i ≤ j → j < k → target < sizes j) → sizes k ≤ target →
      attemptsRun sizes target i fuel = List.range' i (k - i + 1) := by
  intro fuel
  induction fuel with
  | zero => intro i k hik hk _ _; omega
  | succ m ih =>
    intro i k hik hk hbefore hhit
    rcases Nat.eq_or_lt_of_le hik with rfl | hlt
    · rw [attemptsRun, if_pos hhit]
      simp
    · have hi : target < sizes i := hbefore i le_rfl hlt
      rw [attemptsRun, if_neg (by omega),
        ih (i + 1) k hlt (by omega) (fun j hj hj' => hbefore j (by omega) hj') hhit]
      have hk' : k - i + 1 = (k - (i + 1) + 1) + 1 := by omega
      rw [hk']
      simp [List.range'_succ]

/-- C1. Attempts are executed strictly in schedule order and the loop stops at
the first attempt whose measured size is `≤ targetBytes`: if attempts before `k`
are all over target and attempt `k` is within target (`k` inside the `n`-entry
schedule), then the invoked attempts are exactly `0, 1, …, k` in that order, the
returned output is attempt `k`'s, and no attempt after `k` is ever invoked. -/
theorem controller_stops_at_first_hit (sizes : ℕ → ℕ) (target n k : ℕ)
    (hk : k < n) (hbefore : ∀ j, j < k → target < sizes j) (hhit : sizes k ≤ target) :
    attemptsRun sizes target 0 n = List.range (k + 1) ∧
    (attemptsRun sizes target 0 n).getLast? = some k ∧
    ∀ j ∈ attemptsRun sizes target 0 n, j ≤ k := by
  have h := attemptsRun_first_hit sizes target n 0 k (Nat.zero_le k) (by omega)
    (fun j _ hj => hbefore j hj) hhit
  rw [Nat.sub_zero] at h
  rw [h, ← List.range_eq_range']
  refine ⟨rfl, ?_, fun j hj => by simpa [List.mem_range, Nat.lt_succ_iff] using hj⟩
  rw [List.range_succ]
  exact List.getLast?_concat _

/-- Witness for `controller_stops_at_first_hit`: with the 4-entry schedule
`[1.00, 0.82, 0.68, 0.56]`, the mock encoder sizes `[12MB, 9MB, …]` and the
9.8 MB target, the loop invokes exactly attempts 0 and 1, returns attempt 1's
output, and never invokes attempts 2 or 3. -/
theorem controller_stops_at_first_hit_witness :
    attemptsRun mockSizes targetBytesNat 0 4 = List.range (1 + 1) ∧
    (attemptsRun mockSizes targetBytesNat 0 4).getLast? = some 1 ∧
    ∀ j ∈ attemptsRun mockSizes targetBytesNat 0 4, j ≤ 1 :=
  controller_stops_at_first_hit mockSizes targetBytesNat 4 1 (by norm_num)
    (fun j hj => by
      interval_cases j
      rw [targetBytesNat_eq]; decide)
    (by rw [targetBytesNat_eq]; decide)

/-- C2. If every scheduled attempt produces an output larger than the target,
the loop performs exactly `n = len(schedule)` encode invocations — attempts
`0, …, n-1` in order — and the returned output is the last attempt's
(index `n-1`), regardless of which attempt produced the smallest file. -/
theorem controller_exhausts_schedule (sizes : ℕ → ℕ) (target n : ℕ)
    (hn : 0 < n) (hover : ∀ j, j < n → target < sizes j) :
    attemptsRun sizes target 0 n = List.range n ∧
    (attemptsRun sizes target 0 n).length = n ∧
    (attemptsRun sizes target 0 n).getLast? = some (n - 1) := by
  have h := attemptsRun_all_over sizes target n 0 (fun j _ hj => hover j (by omega))
  rw [h, ← List.range_eq_range']
  refine ⟨rfl, List.length_range n, ?_⟩
  obtain ⟨m, rfl⟩ := Nat.exists_eq_succ_of_ne_zero (Nat.pos_iff_ne_zero.mp hn)
  rw [List.range_succ, List.getLast?_concat]
  rfl

/-- Witness for `controller_exhausts_schedule`: with the always-12MB mock encoder
and the 9.8 MB target, the 4-entry schedule runs all four attempts and returns
attempt 3's output. -/
theorem controller_exhausts_schedule_witness :
    attemptsRun mockSizesOver targetBytesNat 0 4 = List.range 4 ∧
    (attemptsRun mockSizesOver targetBytesNat 0 4).length = 4 ∧
    (attemptsRun mockSizesOver targetBytesNat 0 4).getLast? = some (4 - 1) :=
  controller_exhausts_schedule mockSizesOver targetBytesNat 4 (by norm_num)
    (fun j _ => by rw [targetBytesNat_eq]; show 10276044 < 12 * 1024 * 1024; decide)

/-- C10. Within a Job the video bitrate is monotonically non-increasing across
attempts: attempt 0 uses exactly `initialVideoKbps`, attempt `i > 0` uses
`max(48, ⌊initialVideoKbps * factor_i⌋)`, the hard-coded schedule is
non-increasing and starts at 1.0, and each consecutive attempt's bitrate is at
most the previous one's (given the planner's guarantee `initialVideoKbps ≥ 48`). -/
theorem bitrate_monotone (init : ℕ) (h48 : 48 ≤ init) :
    vkbpsAt init 0 = init ∧
    (∀ i, 0 < i → vkbpsAt init i = max 48 (init * factorsNum.getD i 0 / 100)) ∧
    ((∀ i, i + 1 < 4 → factorsNum.getD (i + 1) 0 ≤ factorsNum.getD i 0) ∧
      factorsNum.getD 0 0 = 100) ∧
    (∀ i, i + 1 < 4 → vkbpsAt init (i + 1) ≤ vkbpsAt init i) := by
  refine ⟨rfl, fun i hi => by rw [vkbpsAt, if_neg (by omega)],
    ⟨fun i hi => ?_, rfl⟩, fun i hi => ?_⟩
  · have hi3 : i < 3 := by omega
    interval_cases i <;> decide
  have key : ∀ a b : ℕ, a ≤ b → init * a / 100 ≤ init * b / 100 :=
    fun a b hab => Nat.div_le_div_right (Nat.mul_le_mul (le_refl init) hab)
  have hi3 : i < 3 := by omega
  interval_cases i
  · show max 48 (init * 82 / 100) ≤ init
    refine max_le h48 ?_
    calc init * 82 / 100 ≤ init * 100 / 100 := key 82 100 (by norm_num)
      _ = init := Nat.mul_div_cancel init (by norm_num)
  · exact max_le_max le_rfl (key 68 82 (by norm_num))
  · exact max_le_max le_rfl (key 56 68 (by norm_num))

/-- Witness for `bitrate_monotone`, at `initialVideoKbps = 2644`. -/
theorem bitrate_monotone_witness :
    vkbpsAt 2644 0 = 2644 ∧
    (∀ i, 0 < i → vkbpsAt 2644 i = max 48 (2644 * factorsNum.getD i 0 / 100)) ∧
    ((∀ i, i + 1 < 4 → factorsNum.getD (i + 1) 0 ≤ factorsNum.getD i 0) ∧
      factorsNum.getD 0 0 = 100) ∧
    (∀ i, i + 1 < 4 → vkbpsAt 2644 (i + 1) ≤ vkbpsAt 2644 i) :=
  bitrate_monotone 2644 (by norm_num)

/-- The simple-variant planner at duration 30 s. -/
lemma planSimple_at_30 : planSimple targetBytes 30 = (2740, 2644) := by
  have h : totalKbps 200 targetBytes 30 = 2740 := by
    rw [totalKbps, targetBytes_eq]
    norm_num
  rw [planSimple, h, initialVideoKbps, AUDIO_KBPS]
  norm_num

/-- C9 counterexample. For a 30-second input with the default 9.8 MB target
and 96 kbps audio, the planner computes `totalKbps = 2740`, not the claimed
`2744`, and `initialVideoKbps = 2644`, not the claimed `2648`:
`targetBytes = ⌊9.8·1024·1024⌋ = 10276044`, and
`⌊10276044·8/30/1000⌋ = ⌊2740.2784⌋ = 2740`. -/
theorem planner_at_30s_counterexample :
    (planSimple targetBytes 30).1 = 2740 ∧ (planSimple targetBytes 30).1 ≠ 2744 ∧
    (planSimple targetBytes 30).2 = 2644 ∧ (planSimple targetBytes 30).2 ≠ 2648 := by
  rw [planSimple_at_30]
  norm_num

/-- C9 amended. For a 30-second input, the default 9.8 MB target and 96 kbps
audio, the (simple-variant) planner computes `totalKbps = max(200, ⌊9.8·1024·
1024·8/30/1000⌋) = 2740` and `initialVideoKbps = 2740 − 96 = 2644`; the first
attempt encodes at 2644 kbps video; and if the resulting file is at most
`⌊9.8·1024·1024⌋` bytes the Job finishes after exactly one attempt. -/
theorem planner_at_30s_amended (sizes : ℕ → ℕ) (n : ℕ) (hn : 0 < n)
    (hfirst : sizes 0 ≤ targetBytesNat) :
    (planSimple targetBytes 30).1 = 2740 ∧
    (planSimple targetBytes 30).2 = 2644 ∧
    vkbpsAt 2644 0 = 2644 ∧
    attemptsRun sizes targetBytesNat 0 n = [0] := by
  obtain ⟨m, rfl⟩ := Nat.exists_eq_succ_of_ne_zero (Nat.pos_iff_ne_zero.mp hn)
  rw [planSimple_at_30]
  exact ⟨rfl, rfl, rfl, by rw [attemptsRun, if_pos hfirst]⟩

/-- Witness for `planner_at_30s_amended`: a first attempt of 9 MB against the
9.8 MB target, with the simple variant's 3-entry schedule. -/
theorem planner_at_30s_amended_witness :
    (planSimple targetBytes 30).1 = 2740 ∧
    (planSimple targetBytes 30).2 = 2644 ∧
    vkbpsAt 2644 0 = 2644 ∧
    attemptsRun (fun _ => 9 * 1024 * 1024) targetBytesNat 0 3 = [0] :=
  planner_at_30s_amended (fun _ => 9 * 1024 * 1024) 3 (by norm_num)
    (by rw [targetBytesNat_eq]; norm_num)

/-- If the attempts before `k` all succeed over-target and the encode of attempt
`k` fails, the loop aborts with an error. -/
lemma encLoop_error_at (enc : ℕ → Option ℕ) (target : ℕ) :
    ∀ fuel i k, i ≤ k → k < i + fuel →
      (∀ j, i ≤ j → j < k → ∃ sz, enc j = some sz ∧ target < sz) →
      enc k = none →
      encLoop enc target i fuel = .error () := by
  intro fuel
  induction fuel with
  | zero => intro i k h1 h2 _ _; omega
  | succ m ih =>
    intro i k hik hk hbefore hfail
    rcases Nat.eq_or_lt_of_le hik with rfl | hlt
    · rw [encLoop, hfail]
    · obtain ⟨sz, hsz, hover⟩ := hbefore i le_rfl hlt
      rw [encLoop, hsz]
      simp only [if_neg (by omega : ¬ sz ≤ target)]
      exact ih (i + 1) k hlt (by omega) (fun j hj hj' => hbefore j (by omega) hj') hfail

/-- If every attempt in the window succeeds but stays over target, the loop ends
normally and returns the last attempt's output. -/
lemma encLoop_all_over (enc : ℕ → Option ℕ) (target : ℕ) :
    ∀ fuel i, (∀ j, i ≤ j → j < i + fuel → ∃ sz, enc j = some sz ∧ target < sz) →
      encLoop enc target i fuel = .ok (i + fuel - 1) := by
  intro fuel
  induction fuel with
  | zero => intro i _; rfl
  | succ m ih =>
    intro i h
    obtain ⟨sz, hsz, hover⟩ := h i le_rfl (by omega)
    rw [encLoop, hsz]
    simp only [if_neg (by omega : ¬ sz ≤ target)]
    rcases Nat.eq_zero_or_pos m with rfl | hm
    · rfl
    · rw [ih (i + 1) (fun j hj hj' => h j (by omega) (by omega))]
      congr 1
      omega

/-- C6. For every upload request: no file field → `400`; probe failure →
`500` with the fixed message; an encode failure on any invoked attempt → `500`
with the fixed message; and if every scheduled attempt encodes successfully but
stays over target (target never reached), the response is still a `200` success
with `Content-Type: video/mp4`. -/
theorem upload_response_contract (enc : ℕ → Option ℕ) :
    (∀ probed, uploadResponse false probed enc = ⟨400, none, "No file uploaded"⟩) ∧
    uploadResponse true .fail enc = ⟨500, none, compressionFailedMsg⟩ ∧
    (∀ d k, k < factorsNum.length →
      (∀ j, j < k → ∃ sz, enc j = some sz ∧ targetBytesNat < sz) →
      enc k = none →
      uploadResponse true (.ok d) enc = ⟨500, none, compressionFailedMsg⟩) ∧
    (∀ d, (∀ j, j < factorsNum.length → ∃ sz, enc j = some sz ∧ targetBytesNat < sz) →
      (uploadResponse true (.ok d) enc).status = 200 ∧
      (uploadResponse true (.ok d) enc).contentType = some "video/mp4") := by
  refine ⟨fun probed => rfl, rfl, ?_, ?_⟩
  · intro d k hk hbefore hfail
    have h : encLoop enc targetBytesNat 0 factorsNum.length = .error () :=
      encLoop_error_at enc targetBytesNat factorsNum.length 0 k (Nat.zero_le k)
        (by omega) (fun j _ hj => hbefore j hj) hfail
    simp [uploadResponse, h]
  · intro d hall
    have h : encLoop enc targetBytesNat 0 factorsNum.length =
        .ok (0 + factorsNum.length - 1) :=
      encLoop_all_over enc targetBytesNat factorsNum.length 0
        (fun j _ hj => hall j (by omega))
    constructor <;> simp [uploadResponse, h]

/-- Witness for `upload_response_contract`: concrete scenarios — a probe giving
30 s duration, an encoder failing at attempt 2 after two over-target attempts,
and an encoder always producing 12 MB. -/
theorem upload_response_contract_witness :
    uploadResponse false (.ok (some 30)) (fun _ => some (12 * 1024 * 1024)) =
      ⟨400, none, "No file uploaded"⟩ ∧
    uploadResponse true .fail (fun _ => some (12 * 1024 * 1024)) =
      ⟨500, none, compressionFailedMsg⟩ ∧
    uploadResponse true (.ok (some 30))
        (fun i => if i < 2 then some (12 * 1024 * 1024) else none) =
      ⟨500, none, compressionFailedMsg⟩ ∧
    (uploadResponse true (.ok (some 30)) (fun _ => some (12 * 1024 * 1024))).status
      = 200 ∧
    (uploadResponse true (.ok (some 30))
        (fun _ => some (12 * 1024 * 1024))).contentType = some "video/mp4" := by
  refine ⟨(upload_response_contract (fun _ => some (12 * 1024 * 1024))).1 _,
    (upload_response_contract (fun _ => some (12 * 1024 * 1024))).2.1,
    (upload_response_contract
        (fun i => if i < 2 then some (12 * 1024 * 1024) else none)).2.2.1
      (some 30) 2 (by norm_num [factorsNum]) ?_ (by norm_num),
    (upload_response_contract (fun _ => some (12 * 1024 * 1024))).2.2.2
      (some 30) ?_⟩
  · intro j hj
    refine ⟨12 * 1024 * 1024, by simp [hj], by rw [targetBytesNat_eq]; norm_num⟩
  · intro j _
    exact ⟨12 * 1024 * 1024, rfl, by rw [targetBytesNat_eq]; norm_num⟩

/-- The function `pump` preserves the queue invariant. -/
lemma pump_preserves (C : ℕ) (s : QState)
    (h1 : s.running ≤ C) (h2 : s.arrived = s.started ++ s.pending) :
    (pump C s).running ≤ C ∧
    (pump C s).arrived = (pump C s).started ++ (pump C s).pending := by
  rw [pump]
  split_ifs with hC
  · exact ⟨h1, h2⟩
  · rcases hp : s.pending with _ | ⟨j, rest⟩
    · exact ⟨h1, by rw [h2, hp]⟩
    · constructor
      · show s.running + 1 ≤ C
        omega
      · show s.arrived = (s.started ++ [j]) ++ rest
        rw [h2, hp, List.append_assoc, List.singleton_append]

/-- C4. At every state reachable from the empty admission queue, at most `C`
Jobs hold a slot (`running ≤ C`); the jobs started so far, in start order,
followed by the still-pending queue, equal the arrival order (so jobs are
started strictly FIFO); and in the handler's per-Job event order the slot
release (`running--`) precedes response streaming on success and the 500
response on failure. -/
theorem admission_queue_bounded_fifo (C : ℕ) :
    (∀ s, QReachable C s → s.running ≤ C ∧ s.arrived = s.started ++ s.pending) ∧
    (∀ success : Bool,
      (handlerEvents success).indexOf .slotRelease <
        (handlerEvents success).indexOf
          (if success then .streamResponse else .errorResponse)) := by
  constructor
  · intro s hs
    induction hs with
    | refl => exact ⟨Nat.zero_le C, rfl⟩
    | @tail b c hreach hstep ih =>
      cases hstep with
      | arrive j s =>
        apply pump_preserves
        · exact ih.1
        · show b.arrived ++ [j] = b.started ++ (b.pending ++ [j])
          rw [ih.2, List.append_assoc]
      | complete s hs =>
        apply pump_preserves
        · exact Nat.le_trans (Nat.sub_le _ _) ih.1
        · exact ih.2
  · intro success
    cases success <;> decide

/-- Witness for `admission_queue_bounded_fifo`: the state after one job (id 7)
arrives at an empty queue with capacity 1, reached by a single `arrive` step. -/
theorem admission_queue_bounded_fifo_witness :
    ((pump 1 ⟨[7], [], [7], 0⟩).running ≤ 1 ∧
      (pump 1 ⟨[7], [], [7], 0⟩).arrived =
        (pump 1 ⟨[7], [], [7], 0⟩).started ++ (pump 1 ⟨[7], [], [7], 0⟩).pending) ∧
    (handlerEvents true).indexOf .slotRelease <
      (handlerEvents true).indexOf
        (if true then .streamResponse else .errorResponse) :=
  ⟨(admission_queue_bounded_fifo 1).1 _
      (Relation.ReflTransGen.single (QStep.arrive 7 qInit)),
    (admission_queue_bounded_fifo 1).2 true⟩

/-- C5 evidence, code bug. On the failure path the concurrency-variant
handler schedules only `[inputPath]` for deferred deletion: with the encoder
failing at attempt index 2, the outputs of attempts 0 and 1 are *not* in the
cleanup set; and even on the success path the cleanup set `[inputPath,
filePath]` omits the superseded attempt-1 output when the loop ended at
attempt 2. -/
theorem cleanup_missing_superseded_outputs :
    cleanupSetFailure "./tmp/u1" = ["./tmp/u1"] ∧
    attemptOut "./tmp/100_discompress_v.mp4" "discompress_v.mp4" 100 0 ∉
      cleanupSetFailure "./tmp/u1" ∧
    attemptOut "./tmp/100_discompress_v.mp4" "discompress_v.mp4" 100 1 ∉
      cleanupSetFailure "./tmp/u1" ∧
    attemptOut "./tmp/100_discompress_v.mp4" "discompress_v.mp4" 100 1 ∉
      cleanupSetSuccess "./tmp/u1"
        (attemptOut "./tmp/100_discompress_v.mp4" "discompress_v.mp4" 100 2) := by
  refine ⟨rfl, ?_, ?_, ?_⟩ <;> decide

end Discompress
